import Mathlib

/-!
# QmUSBMode: the USB-mode client of qmsystem2

A shallow embedding of `src/src/qmsystem2/qmusbmode.cpp` and the properties of
its mode vocabulary, its request methods, its forwarding handlers and its
lazy bus subscriptions.

Conventions of the embedding.

* A `QString` is the list of its characters.  The only separator the code
  splits on is `", "`, two ASCII characters, so splitting by characters and
  splitting by UTF-16 code units agree.
* The wire strings (`USB_CONNECTED`, `MODE_MASS_STORAGE`, ...) are macros of
  `usb_moded-modes.h`, a header of the external daemon.  They are the fields of a
  `WireStrings` record that every definition takes as a parameter.
* A blocking bus call is represented by the reply it yields; the requests a
  method issues are returned next to its result.
* The counters `connectCount` are declared in `qmusbmode_p.h`, which is not
  among the sources.  They are unsigned integers of `bits` bits, and the
  width `bits` is a parameter of the notification hooks.
-/

namespace MeeGo

/-- A `QString`, as the list of its characters. -/
abbrev QString := List Char

/-- Modelled from the spec: the enumeration `QmUSBMode::Mode` is declared in
`qmusbmode.h`, which is not among the sources; these are the sixteen members
the spec lists, all of which occur in `modeToString`. -/
inductive Mode where
  | Connected
  | DataInUse
  | Disconnected
  | MassStorage
  | ChargingOnly
  | PCSuite
  | Ask
  | Undefined
  | ModeRequest
  | MTP
  | Adb
  | Diag
  | Developer
  | ConnectionSharing
  | Host
  | Charger
  deriving DecidableEq, Repr

/-- The string macros of `usb_moded-modes.h` that `qmusbmode.cpp` uses: the
sixteen wire strings of the mode vocabulary and the pre-unmount sentinel. -/
structure WireStrings where
  USB_CONNECTED : QString
  DATA_IN_USE : QString
  USB_DISCONNECTED : QString
  MODE_MASS_STORAGE : QString
  MODE_CHARGING : QString
  MODE_PC_SUITE : QString
  MODE_ASK : QString
  MODE_UNDEFINED : QString
  USB_CONNECTED_DIALOG_SHOW : QString
  MODE_MTP : QString
  MODE_ADB : QString
  MODE_DIAG : QString
  MODE_DEVELOPER : QString
  MODE_CONNECTION_SHARING : QString
  MODE_HOST : QString
  MODE_CHARGER : QString
  USB_PRE_UNMOUNT : QString

/-- The method `QmUSBModePrivate::modeToString`: the `switch` over the mode.  Its
`default` branch (the empty string) is not reachable from the sixteen
members of `Mode`. -/
def modeToString (w : WireStrings) (mode : Mode) : QString :=
  match mode with
  | Mode.Connected => w.USB_CONNECTED
  | Mode.DataInUse => w.DATA_IN_USE
  | Mode.Disconnected => w.USB_DISCONNECTED
  | Mode.MassStorage => w.MODE_MASS_STORAGE
  | Mode.ChargingOnly => w.MODE_CHARGING
  | Mode.PCSuite => w.MODE_PC_SUITE
  | Mode.Ask => w.MODE_ASK
  | Mode.Undefined => w.MODE_UNDEFINED
  | Mode.ModeRequest => w.USB_CONNECTED_DIALOG_SHOW
  | Mode.MTP => w.MODE_MTP
  | Mode.Adb => w.MODE_ADB
  | Mode.Diag => w.MODE_DIAG
  | Mode.Developer => w.MODE_DEVELOPER
  | Mode.ConnectionSharing => w.MODE_CONNECTION_SHARING
  | Mode.Host => w.MODE_HOST
  | Mode.Charger => w.MODE_CHARGER

/-- The method `QmUSBModePrivate::stringToMode`: the chain of comparisons, in the order
of the source. -/
def stringToMode (w : WireStrings) (str : QString) : Mode :=
  if str = w.USB_CONNECTED then Mode.Connected
  else if str = w.USB_DISCONNECTED then Mode.Disconnected
  else if str = w.DATA_IN_USE then Mode.DataInUse
  else if str = w.MODE_MASS_STORAGE then Mode.MassStorage
  else if str = w.MODE_PC_SUITE then Mode.PCSuite
  else if str = w.MODE_CHARGING then Mode.ChargingOnly
  else if str = w.MODE_ASK then Mode.Ask
  else if str = w.MODE_UNDEFINED then Mode.Undefined
  else if str = w.USB_CONNECTED_DIALOG_SHOW then Mode.ModeRequest
  else if str = w.MODE_MTP then Mode.MTP
  else if str = w.MODE_ADB then Mode.Adb
  else if str = w.MODE_DIAG then Mode.Diag
  else if str = w.MODE_DEVELOPER then Mode.Developer
  else if str = w.MODE_CONNECTION_SHARING then Mode.ConnectionSharing
  else if str = w.MODE_HOST then Mode.Host
  else if str = w.MODE_CHARGER then Mode.Charger
  else Mode.Undefined

/-- The sixteen members of `Mode`. -/
def allModes : List Mode :=
  [Mode.Connected, Mode.DataInUse, Mode.Disconnected, Mode.MassStorage,
   Mode.ChargingOnly, Mode.PCSuite, Mode.Ask, Mode.Undefined, Mode.ModeRequest,
   Mode.MTP, Mode.Adb, Mode.Diag, Mode.Developer, Mode.ConnectionSharing,
   Mode.Host, Mode.Charger]

/-- The mode vocabulary: the sixteen wire strings, in the order of the
enumeration. -/
def WireStrings.vocabulary (w : WireStrings) : List QString :=
  allModes.map (modeToString w)

/-- A sample vocabulary of pairwise distinct, non-empty, comma-free strings,
used to instantiate the theorems at a concrete input.  The header that
defines the real values is not among the sources. -/
def sampleWire : WireStrings where
  USB_CONNECTED := "USB connected".toList
  DATA_IN_USE := "data_in_use".toList
  USB_DISCONNECTED := "USB disconnected".toList
  MODE_MASS_STORAGE := "mass_storage".toList
  MODE_CHARGING := "charging_only".toList
  MODE_PC_SUITE := "pc_suite".toList
  MODE_ASK := "ask".toList
  MODE_UNDEFINED := "undefined".toList
  USB_CONNECTED_DIALOG_SHOW := "mode_requested_show_dialog".toList
  MODE_MTP := "mtp_mode".toList
  MODE_ADB := "adb_mode".toList
  MODE_DIAG := "diag_mode".toList
  MODE_DEVELOPER := "developer_mode".toList
  MODE_CONNECTION_SHARING := "connection_sharing".toList
  MODE_HOST := "host_mode".toList
  MODE_CHARGER := "dedicated_charger".toList
  USB_PRE_UNMOUNT := "pre-unmount".toList

/-! ## Strings and the bus -/

/-- The separator of the supported-modes list: a comma followed by one
space. -/
def commaSpace : QString := [',', ' ']

/-- The scan of `QString::split` for a non-empty separator: `skip` characters
of a separator that has just been matched are still to be passed over, `acc`
holds the characters of the current part, last one first. -/
def splitAux (sep : QString) : Nat → QString → QString → List QString
  | _, acc, [] => [acc.reverse]
  | skip + 1, acc, _ :: cs => splitAux sep skip acc cs
  | 0, acc, c :: cs =>
      if sep.isPrefixOf (c :: cs) then
        acc.reverse :: splitAux sep (sep.length - 1) [] cs
      else
        splitAux sep 0 (c :: acc) cs

/-- The library function `QString::split(sep)` with its default behaviour
(empty parts are kept, the comparison is case sensitive): the parts between
the occurrences of `sep` found from left to right.  With an empty separator
every character is a part of its own, between two empty parts. -/
def split (sep : QString) (s : QString) : List QString :=
  match sep with
  | [] => [] :: (s.map fun c => [c]) ++ [[]]
  | _ :: _ => splitAux sep 0 [] s

/-- The library enumeration `QDBusMessage::MessageType`. -/
inductive MessageType where
  | InvalidMessage
  | MethodCallMessage
  | ReplyMessage
  | ErrorMessage
  | SignalMessage
  deriving DecidableEq, Repr

/-- An argument of a bus message, a `QVariant`: a string, or a value of
another type. -/
inductive QVariant where
  | invalid
  | string (s : QString)
  | bool (b : Bool)
  deriving DecidableEq, Repr

/-- The library function `QVariant::toString`: the string itself, `"true"` or
`"false"` for a boolean, the empty string for an invalid variant. -/
def QVariant.toString : QVariant → QString
  | QVariant.invalid => []
  | QVariant.string s => s
  | QVariant.bool true => "true".toList
  | QVariant.bool false => "false".toList

/-- A `QDBusMessage` as far as the code inspects it: its type and its
arguments. -/
structure QDBusMessage where
  type : MessageType
  arguments : List QVariant
  deriving DecidableEq, Repr

/-- A `QDBusReply<QString>`: `some value` when `isValid()`, `none`
otherwise. -/
abbrev QDBusReply := Option QString

/-- The method names of `usb_moded-dbus.h` that the code calls. -/
inductive Method where
  | USB_MODE_LIST
  | USB_MODE_STATE_REQUEST
  | USB_MODE_STATE_SET
  | USB_MODE_CONFIG_SET
  | USB_MODE_CONFIG_GET
  deriving DecidableEq, Repr

/-- Whether a call waits for its reply (`QDBus::Block`, the default) or not
(`QDBus::NoBlock`). -/
inductive CallMode where
  | Block
  | NoBlock
  deriving DecidableEq, Repr

/-- A method call sent to the service `USB_MODE_SERVICE`. -/
structure Request where
  method : Method
  arguments : List QString
  mode : CallMode
  deriving DecidableEq, Repr

/-! ## The query and request methods of `QmUSBMode` -/

/-- The body of the `foreach` loop shared by `getSupportedModes` and the
`supportedModesChanged` slot: a mode other than `Undefined` is appended. -/
def appendMode (w : WireStrings) (supportedModes : List Mode)
    (usbModeString : QString) : List Mode :=
  let usbMode := stringToMode w usbModeString
  if usbMode ≠ Mode.Undefined then supportedModes ++ [usbMode] else supportedModes

/-- The method `QmUSBMode::getSupportedModes`, given the reply of the blocking call of
`USB_MODE_LIST`. -/
def getSupportedModes (w : WireStrings) (usbModeReply : QDBusReply) : List Mode :=
  match usbModeReply with
  | some value => (split commaSpace value).foldl (appendMode w) []
  | none => []

/-- The method `QmUSBMode::getMode`, given the reply of the blocking call of
`USB_MODE_STATE_REQUEST`. -/
def getMode (w : WireStrings) (usbModeReply : QDBusReply) : Mode :=
  match usbModeReply with
  | some value => stringToMode w value
  | none => Mode.Undefined

/-- The method `QmUSBMode::setMode`: the returned flag and the requests sent.  `reply`
is what `QDBusConnection::call` hands back for the `NoBlock` call; the code
casts it to `void`. -/
def setMode (w : WireStrings) (mode : Mode) (reply : QDBusMessage) :
    Bool × List Request :=
  if ¬ (Mode.PCSuite = mode ∨ Mode.MassStorage = mode ∨ Mode.ChargingOnly = mode ∨
        Mode.Developer = mode ∨ Mode.MTP = mode ∨ Mode.Adb = mode ∨ Mode.Diag = mode ∨
        Mode.Host = mode ∨ Mode.ConnectionSharing = mode ∨ Mode.Charger = mode) then
    (false, [])
  else
    let usbModeString := modeToString w mode
    if usbModeString.isEmpty then
      (false, [])
    else
      let _ := reply
      (true, [⟨Method.USB_MODE_STATE_SET, [usbModeString], CallMode.NoBlock⟩])

/-- The method `QmUSBMode::setDefaultMode`: the returned flag and the requests sent.
`result` is the reply of the blocking call of `USB_MODE_CONFIG_SET`. -/
def setDefaultMode (w : WireStrings) (mode : Mode) (result : QDBusMessage) :
    Bool × List Request :=
  if ¬ (Mode.PCSuite = mode ∨ Mode.MassStorage = mode ∨ Mode.ChargingOnly = mode ∨
        Mode.Developer = mode ∨ Mode.MTP = mode ∨ Mode.Adb = mode ∨ Mode.Diag = mode ∨
        Mode.Host = mode ∨ Mode.Ask = mode ∨ Mode.ConnectionSharing = mode ∨
        Mode.Charger = mode) then
    (false, [])
  else
    let str := modeToString w mode
    if str.isEmpty then
      (false, [])
    else
      (decide (result.type ≠ MessageType.ErrorMessage),
       [⟨Method.USB_MODE_CONFIG_SET, [str], CallMode.Block⟩])

/-- The method `QmUSBMode::getDefaultMode`, given the reply of the blocking call of
`USB_MODE_CONFIG_GET`.  `first()` is taken of a list known to have one
element. -/
def getDefaultMode (w : WireStrings) (result : QDBusMessage) : Mode :=
  if h : result.type ≠ MessageType.ReplyMessage ∨ result.arguments.length ≠ 1 then
    Mode.Undefined
  else
    let mode := (result.arguments.head (by
      intro hnil
      apply h
      right
      rw [hnil]
      decide)).toString
    stringToMode w mode

/-! ## The forwarding slots of `QmUSBModePrivate` -/

/-- A signal emitted by the private object; `QmUSBMode` re-emits each of them
to its observers under the same name. -/
inductive Emitted where
  | modeChanged (mode : Mode)
  | error (errorCode : QString)
  | supportedModesChanged (supportedModes : List Mode)
  deriving DecidableEq, Repr

/-- The slot `QmUSBModePrivate::didReceiveError`. -/
def didReceiveError (errorCode : QString) : List Emitted :=
  [Emitted.error errorCode]

/-- The slot `QmUSBModePrivate::modeChanged`: nothing is done for the pre-unmount
string. -/
def modeChanged (w : WireStrings) (mode : QString) : List Emitted :=
  if mode = w.USB_PRE_UNMOUNT then
    []
  else
    [Emitted.modeChanged (stringToMode w mode)]

/-- The slot `QmUSBModePrivate::supportedModesChanged`. -/
def supportedModesChanged (w : WireStrings) (usbModeReply : QString) : List Emitted :=
  let supportedModes := (split commaSpace usbModeReply).foldl (appendMode w) []
  [Emitted.supportedModesChanged supportedModes]

/-! ## Lazy subscription to the daemon's signals -/

/-- The signal an observer connects to or disconnects from, the argument of
`connectNotify` and `disconnectNotify`; `other` is any signal of the object
that is none of the three. -/
inductive Signal where
  | modeChanged
  | error
  | supportedModesChanged
  | other
  deriving DecidableEq, Repr

/-- The signal names of `usb_moded-dbus.h`. -/
inductive BusSignal where
  | USB_MODE_SIGNAL_NAME
  | USB_MODE_ERROR_SIGNAL_NAME
  | USB_MODE_SUPPORTED_MODES_SIGNAL_NAME
  deriving DecidableEq, Repr

/-- A call of `QDBusConnection::systemBus().connect` or `.disconnect` for a
signal of the daemon. -/
inductive BusAction where
  | connect (name : BusSignal)
  | disconnect (name : BusSignal)
  deriving DecidableEq, Repr

/-- The index `SIGNAL_USB_MODE` into `connectCount`. -/
def SIGNAL_USB_MODE : Fin 3 := 0

/-- The index `SIGNAL_USB_ERROR` into `connectCount`. -/
def SIGNAL_USB_ERROR : Fin 3 := 1

/-- The index `SIGNAL_USB_SUPPORTED_MODES` into `connectCount`. -/
def SIGNAL_USB_SUPPORTED_MODES : Fin 3 := 2

/-- Modelled from the spec: the array `connectCount` is declared in
`qmusbmode_p.h`, which is not among the sources; the spec describes its
elements as non-negative integers.  They are taken as unsigned integers of
`bits` bits, the width being a parameter.  This is `++` on such a counter. -/
def increment (bits : Nat) (count : Nat) : Nat :=
  (count + 1) % 2 ^ bits

/-- Modelled from the spec: `--` on an unsigned counter of `bits` bits (see
`increment`); zero wraps to the largest value. -/
def decrement (bits : Nat) (count : Nat) : Nat :=
  (count + (2 ^ bits - 1)) % 2 ^ bits

/-- The state the two notification hooks work on: the array `connectCount` of
the private object and, for each signal of the daemon, whether the system bus
currently delivers it to the private object (the bus calls are taken to
succeed). -/
structure State where
  connectCount : Fin 3 → Nat
  subscribed : BusSignal → Bool

/-- The state after construction: `memset` zeroes the counters, nothing is
connected on the bus. -/
def State.init : State where
  connectCount := fun _ => 0
  subscribed := fun _ => false

/-- The hook body of `connectNotify` for one counter: connect on the bus when
the counter is zero, then increment it. -/
def connectChannel (bits : Nat) (st : State) (i : Fin 3) (name : BusSignal) :
    State × List BusAction :=
  let st1 : State × List BusAction :=
    if 0 = st.connectCount i then
      ({ st with subscribed := Function.update st.subscribed name true },
       [BusAction.connect name])
    else (st, [])
  ({ st1.1 with connectCount :=
        Function.update st1.1.connectCount i (increment bits (st1.1.connectCount i)) },
   st1.2)

/-- The test that follows the update of a counter in `disconnectNotify`:
disconnect on the bus when the counter is zero. -/
def disconnectIfZero (st : State) (i : Fin 3) (name : BusSignal) :
    State × List BusAction :=
  if 0 = st.connectCount i then
    ({ st with subscribed := Function.update st.subscribed name false },
     [BusAction.disconnect name])
  else (st, [])

/-- The method `QmUSBMode::connectNotify`: the new state and the bus calls
made. -/
def connectNotify (bits : Nat) (st : State) (signal : Signal) :
    State × List BusAction :=
  if signal = Signal.modeChanged then
    connectChannel bits st SIGNAL_USB_MODE BusSignal.USB_MODE_SIGNAL_NAME
  else if signal = Signal.error then
    connectChannel bits st SIGNAL_USB_ERROR BusSignal.USB_MODE_ERROR_SIGNAL_NAME
  else if signal = Signal.supportedModesChanged then
    connectChannel bits st SIGNAL_USB_SUPPORTED_MODES
      BusSignal.USB_MODE_SUPPORTED_MODES_SIGNAL_NAME
  else (st, [])

/-- The method `QmUSBMode::disconnectNotify`: the new state and the bus calls
made.  The first two branches decrement their counter; the third one
increments it, as line 136 of the source does. -/
def disconnectNotify (bits : Nat) (st : State) (signal : Signal) :
    State × List BusAction :=
  if signal = Signal.modeChanged then
    disconnectIfZero
      { st with connectCount := Function.update st.connectCount SIGNAL_USB_MODE
                  (decrement bits (st.connectCount SIGNAL_USB_MODE)) }
      SIGNAL_USB_MODE BusSignal.USB_MODE_SIGNAL_NAME
  else if signal = Signal.error then
    disconnectIfZero
      { st with connectCount := Function.update st.connectCount SIGNAL_USB_ERROR
                  (decrement bits (st.connectCount SIGNAL_USB_ERROR)) }
      SIGNAL_USB_ERROR BusSignal.USB_MODE_ERROR_SIGNAL_NAME
  else if signal = Signal.supportedModesChanged then
    disconnectIfZero
      { st with connectCount := Function.update st.connectCount SIGNAL_USB_SUPPORTED_MODES
                  (increment bits (st.connectCount SIGNAL_USB_SUPPORTED_MODES)) }
      SIGNAL_USB_SUPPORTED_MODES BusSignal.USB_MODE_SUPPORTED_MODES_SIGNAL_NAME
  else (st, [])

/-- An observer is registered for a signal, or removed from it. -/
inductive Event where
  | connect (signal : Signal)
  | disconnect (signal : Signal)
  deriving DecidableEq, Repr

/-- The hook that an event runs. -/
def step (bits : Nat) (st : State) : Event → State × List BusAction
  | Event.connect signal => connectNotify bits st signal
  | Event.disconnect signal => disconnectNotify bits st signal

/-- The state after a sequence of events and the bus calls of each event, in
order. -/
def run (bits : Nat) : State → List Event → State × List (List BusAction)
  | st, [] => (st, [])
  | st, e :: es =>
      let r := step bits st e
      let rest := run bits r.1 es
      (rest.1, r.2 :: rest.2)

/-- The number of observers of each signal after an event, given the numbers
before it. -/
def observersAfter (obs : Signal → Nat) : Event → Signal → Nat
  | Event.connect signal => Function.update obs signal (obs signal + 1)
  | Event.disconnect signal => Function.update obs signal (obs signal - 1)

/-- Whether, in a sequence of events, an observer is removed from a signal
only while the signal has an observer; `obs` counts the observers at the
start. -/
def Admissible : (Signal → Nat) → List Event → Bool
  | _, [] => true
  | obs, Event.connect signal :: es =>
      Admissible (observersAfter obs (Event.connect signal)) es
  | obs, Event.disconnect signal :: es =>
      decide (0 < obs signal) && Admissible (observersAfter obs (Event.disconnect signal)) es

/-- The number of observers of each signal after a sequence of events that
starts with `obs` observers. -/
def observers (obs : Signal → Nat) : List Event → Signal → Nat
  | [] => obs
  | e :: es => observers (observersAfter obs e) es

/-- No observer on any signal: the numbers at construction. -/
def noObservers : Signal → Nat := fun _ => 0

/-- The bus signal behind each of the three notification channels. -/
def busSignal : Fin 3 → BusSignal
  | 0 => BusSignal.USB_MODE_SIGNAL_NAME
  | 1 => BusSignal.USB_MODE_ERROR_SIGNAL_NAME
  | 2 => BusSignal.USB_MODE_SUPPORTED_MODES_SIGNAL_NAME

/-- The client signal of each of the three notification channels. -/
def clientSignal : Fin 3 → Signal
  | 0 => Signal.modeChanged
  | 1 => Signal.error
  | 2 => Signal.supportedModesChanged

/-- An observer of `supportedModesChanged` that is registered and removed
again, `k` times over. -/
def comeAndGo : Nat → List Event
  | 0 => []
  | k + 1 =>
      Event.connect Signal.supportedModesChanged ::
        Event.disconnect Signal.supportedModesChanged :: comeAndGo k

/-- A sequence of `2 ^ bits` events on `supportedModesChanged` with never
more than two observers: a first observer is registered, a second one comes
and goes `2 ^ (bits - 1) - 1` times and is then registered once more. -/
def wrapEvents (bits : Nat) : List Event :=
  Event.connect Signal.supportedModesChanged ::
    (comeAndGo (2 ^ (bits - 1) - 1) ++ [Event.connect Signal.supportedModesChanged])

/-- The relation the hooks keep between the observers and the state while
fewer than `2 ^ bits` events have happened, `n` bounding their number: on the
first two channels the counter is the number of observers; on the third one
it is at least that number; no counter exceeds `n`; on every channel the bus
connection exists exactly when the counter is positive. -/
def Inv (n : Nat) (obs : Signal → Nat) (st : State) : Prop :=
  (st.connectCount SIGNAL_USB_MODE = obs Signal.modeChanged ∧
    st.connectCount SIGNAL_USB_ERROR = obs Signal.error ∧
    obs Signal.supportedModesChanged ≤ st.connectCount SIGNAL_USB_SUPPORTED_MODES) ∧
  (st.connectCount SIGNAL_USB_MODE ≤ n ∧
    st.connectCount SIGNAL_USB_ERROR ≤ n ∧
    st.connectCount SIGNAL_USB_SUPPORTED_MODES ≤ n) ∧
  ((0 < st.connectCount SIGNAL_USB_MODE ↔
      st.subscribed BusSignal.USB_MODE_SIGNAL_NAME = true) ∧
    (0 < st.connectCount SIGNAL_USB_ERROR ↔
      st.subscribed BusSignal.USB_MODE_ERROR_SIGNAL_NAME = true) ∧
    (0 < st.connectCount SIGNAL_USB_SUPPORTED_MODES ↔
      st.subscribed BusSignal.USB_MODE_SUPPORTED_MODES_SIGNAL_NAME = true))

/-! ## Splitting, as the spec words it -/

/-- The parts joined by the separator: `QStringList::join`. -/
def joinWith (sep : QString) : List QString → QString
  | [] => []
  | [t] => t
  | t :: t' :: ts => t ++ sep ++ joinWith sep (t' :: ts)

/-- The spec's exact split of `r` on the delimiter `sep`: `parts` is a
non-empty list of strings, none of which contains the delimiter, and `r` is
these strings joined by the delimiter. -/
def SplitsInto (sep : QString) (r : QString) (parts : List QString) : Prop :=
  parts ≠ [] ∧ (∀ t ∈ parts, ¬ sep <:+: t) ∧ joinWith sep parts = r

/-! ## The allow-lists of the spec -/

/-- The modes that the spec allows `setMode` to request. -/
def setModeAllowList : List Mode :=
  [Mode.PCSuite, Mode.MassStorage, Mode.ChargingOnly, Mode.Developer, Mode.MTP,
   Mode.Adb, Mode.Diag, Mode.Host, Mode.ConnectionSharing, Mode.Charger]

/-- The modes that the spec allows `setDefaultMode` to request: the allow-list
of `setMode` and `Ask`. -/
def setDefaultModeAllowList : List Mode :=
  setModeAllowList ++ [Mode.Ask]

/-! ## Theorems -/

theorem mem_allModes (m : Mode) : m ∈ allModes := by
  cases m <;> simp [allModes]

theorem modeToString_mem_vocabulary (w : WireStrings) (m : Mode) :
    modeToString w m ∈ w.vocabulary :=
  List.mem_map.mpr ⟨m, mem_allModes m, rfl⟩

/-- What the chain of comparisons finds: a mode whose wire string is the
argument, or `Undefined` when the argument is no wire string at all. -/
theorem stringToMode_cases (w : WireStrings) (s : QString) :
    s = modeToString w (stringToMode w s) ∨
      (stringToMode w s = Mode.Undefined ∧ ∀ m, s ≠ modeToString w m) := by
  unfold stringToMode
  by_cases h1 : s = w.USB_CONNECTED
  · rw [if_pos h1]; exact Or.inl h1
  rw [if_neg h1]
  by_cases h2 : s = w.USB_DISCONNECTED
  · rw [if_pos h2]; exact Or.inl h2
  rw [if_neg h2]
  by_cases h3 : s = w.DATA_IN_USE
  · rw [if_pos h3]; exact Or.inl h3
  rw [if_neg h3]
  by_cases h4 : s = w.MODE_MASS_STORAGE
  · rw [if_pos h4]; exact Or.inl h4
  rw [if_neg h4]
  by_cases h5 : s = w.MODE_PC_SUITE
  · rw [if_pos h5]; exact Or.inl h5
  rw [if_neg h5]
  by_cases h6 : s = w.MODE_CHARGING
  · rw [if_pos h6]; exact Or.inl h6
  rw [if_neg h6]
  by_cases h7 : s = w.MODE_ASK
  · rw [if_pos h7]; exact Or.inl h7
  rw [if_neg h7]
  by_cases h8 : s = w.MODE_UNDEFINED
  · rw [if_pos h8]; exact Or.inl h8
  rw [if_neg h8]
  by_cases h9 : s = w.USB_CONNECTED_DIALOG_SHOW
  · rw [if_pos h9]; exact Or.inl h9
  rw [if_neg h9]
  by_cases h10 : s = w.MODE_MTP
  · rw [if_pos h10]; exact Or.inl h10
  rw [if_neg h10]
  by_cases h11 : s = w.MODE_ADB
  · rw [if_pos h11]; exact Or.inl h11
  rw [if_neg h11]
  by_cases h12 : s = w.MODE_DIAG
  · rw [if_pos h12]; exact Or.inl h12
  rw [if_neg h12]
  by_cases h13 : s = w.MODE_DEVELOPER
  · rw [if_pos h13]; exact Or.inl h13
  rw [if_neg h13]
  by_cases h14 : s = w.MODE_CONNECTION_SHARING
  · rw [if_pos h14]; exact Or.inl h14
  rw [if_neg h14]
  by_cases h15 : s = w.MODE_HOST
  · rw [if_pos h15]; exact Or.inl h15
  rw [if_neg h15]
  by_cases h16 : s = w.MODE_CHARGER
  · rw [if_pos h16]; exact Or.inl h16
  rw [if_neg h16]
  right
  refine ⟨rfl, ?_⟩
  intro m
  cases m <;> assumption

theorem modeToString_injective (w : WireStrings) (hd : w.vocabulary.Nodup)
    (m m' : Mode) (h : modeToString w m = modeToString w m') : m = m' :=
  List.inj_on_of_nodup_map hd (mem_allModes m) (mem_allModes m') h

theorem stringToMode_of_modeToString (w : WireStrings)
    (hd : w.vocabulary.Nodup) (m : Mode) : stringToMode w (modeToString w m) = m := by
  rcases stringToMode_cases w (modeToString w m) with h | ⟨_, h⟩
  · exact (modeToString_injective w hd _ _ h).symm
  · exact absurd rfl (h m)

theorem stringToMode_eq_Undefined (w : WireStrings) (s : QString)
    (hs : s ∉ w.vocabulary) : stringToMode w s = Mode.Undefined := by
  rcases stringToMode_cases w s with h | ⟨h, _⟩
  · exact absurd (h ▸ modeToString_mem_vocabulary w _) hs
  · exact h

/-- Claim C1: when the sixteen wire strings are pairwise distinct,
`stringToMode (modeToString m) = m` for every mode `m`, and
`modeToString (stringToMode s) = s` for every wire string `s`. -/
theorem stringToMode_modeToString_inverse (w : WireStrings)
    (hd : w.vocabulary.Nodup) :
    (∀ m : Mode, stringToMode w (modeToString w m) = m) ∧
      (∀ s ∈ w.vocabulary, modeToString w (stringToMode w s) = s) := by
  refine ⟨stringToMode_of_modeToString w hd, ?_⟩
  intro s hs
  obtain ⟨m, _, rfl⟩ := List.mem_map.mp hs
  rcases stringToMode_cases w (modeToString w m) with h | ⟨_, h⟩
  · exact h.symm
  · exact absurd rfl (h m)

theorem stringToMode_modeToString_inverse_witness :
    sampleWire.vocabulary.Nodup ∧
      (∀ m : Mode, stringToMode sampleWire (modeToString sampleWire m) = m) ∧
      (∀ s ∈ sampleWire.vocabulary,
        modeToString sampleWire (stringToMode sampleWire s) = s) :=
  ⟨by decide, stringToMode_modeToString_inverse sampleWire (by decide)⟩

/-- Claim C2: a string that is none of the sixteen wire strings is mapped to
`Undefined` by `stringToMode`.  The comparison is exact, so this holds for the
empty string and for a wire string in another case or with blanks around it,
as long as they are not wire strings themselves. -/
theorem stringToMode_outside_vocabulary (w : WireStrings) (s : QString)
    (hs : s ∉ w.vocabulary) : stringToMode w s = Mode.Undefined :=
  stringToMode_eq_Undefined w s hs

theorem stringToMode_outside_vocabulary_witness :
    ([] ∉ sampleWire.vocabulary ∧ stringToMode sampleWire [] = Mode.Undefined) ∧
    ("PC_Suite".toList ∉ sampleWire.vocabulary ∧
      stringToMode sampleWire "PC_Suite".toList = Mode.Undefined) ∧
    (" pc_suite ".toList ∉ sampleWire.vocabulary ∧
      stringToMode sampleWire " pc_suite ".toList = Mode.Undefined) :=
  ⟨⟨by decide, stringToMode_outside_vocabulary sampleWire [] (by decide)⟩,
   ⟨by decide, stringToMode_outside_vocabulary sampleWire "PC_Suite".toList (by decide)⟩,
   ⟨by decide, stringToMode_outside_vocabulary sampleWire " pc_suite ".toList (by decide)⟩⟩

/-! ### Splitting on `", "` -/

theorem commaSpace_prefix_iff (l : QString) :
    commaSpace <+: l ↔ ∃ cs, l = ',' :: ' ' :: cs := by
  constructor
  · rintro ⟨t, rfl⟩
    exact ⟨t, rfl⟩
  · rintro ⟨cs, rfl⟩
    exact ⟨cs, rfl⟩

theorem splitAux_sep (acc cs : QString) :
    splitAux commaSpace 0 acc (',' :: ' ' :: cs) =
      acc.reverse :: splitAux commaSpace 0 [] cs := by
  simp [splitAux, commaSpace]

theorem splitAux_other (acc : QString) (c : Char) (cs : QString)
    (h : ¬ commaSpace <+: c :: cs) :
    splitAux commaSpace 0 acc (c :: cs) = splitAux commaSpace 0 (c :: acc) cs := by
  have h' : commaSpace.isPrefixOf (c :: cs) = false := by
    rw [Bool.eq_false_iff]
    intro hp
    exact h (List.isPrefixOf_iff_prefix.mp hp)
  rw [splitAux, h']
  simp

/-- The scan over one part: it runs to the end of a string that contains no
delimiter, and up to the next delimiter when one follows. -/
theorem splitAux_part (t : QString) (ht : ¬ commaSpace <:+: t) (acc : QString) :
    splitAux commaSpace 0 acc t = [acc.reverse ++ t] ∧
      ∀ rest, splitAux commaSpace 0 acc (t ++ ',' :: ' ' :: rest) =
        (acc.reverse ++ t) :: splitAux commaSpace 0 [] rest := by
  induction t generalizing acc with
  | nil =>
    refine ⟨by simp [splitAux], fun rest => ?_⟩
    simpa using splitAux_sep acc rest
  | cons c t ih =>
    have h1 : ¬ commaSpace <+: c :: t := fun h => ht h.isInfix
    have h2 : ¬ commaSpace <:+: t := fun h => ht (List.infix_cons h)
    obtain ⟨ih1, ih2⟩ := ih h2 (c :: acc)
    constructor
    · rw [splitAux_other acc c t h1, ih1]
      simp
    · intro rest
      have h3 : ¬ commaSpace <+: c :: (t ++ ',' :: ' ' :: rest) := by
        intro hp
        obtain ⟨cs, hcs⟩ := (commaSpace_prefix_iff _).mp hp
        cases t with
        | nil => simp at hcs
        | cons d t' =>
          simp only [List.cons_append, List.cons.injEq] at hcs
          obtain ⟨hc, hd, _⟩ := hcs
          exact h1 ((commaSpace_prefix_iff _).mpr ⟨t', by rw [hc, hd]⟩)
      rw [List.cons_append, splitAux_other acc c _ h3, ih2 rest]
      simp

theorem joinWith_cons_head (sep : QString) (c : Char) (t : QString)
    (rest : List QString) :
    joinWith sep ((c :: t) :: rest) = c :: joinWith sep (t :: rest) := by
  cases rest <;> simp [joinWith]

/-- The split of a joined list of delimiter-free parts is that list. -/
theorem split_joinWith (parts : List QString) (hne : parts ≠ [])
    (hfree : ∀ t ∈ parts, ¬ commaSpace <:+: t) :
    split commaSpace (joinWith commaSpace parts) = parts := by
  have hsplit : ∀ s, split commaSpace s = splitAux commaSpace 0 [] s := fun _ => rfl
  rw [hsplit]
  induction parts with
  | nil => exact absurd rfl hne
  | cons t ts ih =>
    have ht : ¬ commaSpace <:+: t := hfree t (List.mem_cons_self _ _)
    cases ts with
    | nil => simpa [joinWith] using (splitAux_part t ht []).1
    | cons t' ts' =>
      have hrest := ih (List.cons_ne_nil _ _)
        (fun u hu => hfree u (List.mem_cons_of_mem _ hu))
      have hstep := (splitAux_part t ht []).2 (joinWith commaSpace (t' :: ts'))
      simp only [List.reverse_nil, List.nil_append] at hstep
      have hjoin : joinWith commaSpace (t :: t' :: ts') =
          t ++ ',' :: ' ' :: joinWith commaSpace (t' :: ts') := by
        simp [joinWith, commaSpace]
      rw [hjoin, hstep, hrest]

/-- Every string is a join of delimiter-free parts. -/
theorem exists_splitsInto (s : QString) : ∃ parts, SplitsInto commaSpace s parts := by
  induction s with
  | nil => exact ⟨[[]], by simp, by simp [commaSpace], rfl⟩
  | cons c s ih =>
    obtain ⟨parts, hne, hfree, hjoin⟩ := ih
    cases parts with
    | nil => exact absurd rfl hne
    | cons t0 rest =>
      have ht0 : ¬ commaSpace <:+: t0 := hfree t0 (List.mem_cons_self _ _)
      have hrest : ∀ u ∈ rest, ¬ commaSpace <:+: u :=
        fun u hu => hfree u (List.mem_cons_of_mem _ hu)
      by_cases hp : commaSpace <+: c :: t0
      · obtain ⟨cs, hcs⟩ := (commaSpace_prefix_iff _).mp hp
        simp only [List.cons.injEq] at hcs
        obtain ⟨hc, ht0eq⟩ := hcs
        refine ⟨[] :: cs :: rest, List.cons_ne_nil _ _, ?_, ?_⟩
        · intro u hu
          rcases List.mem_cons.mp hu with rfl | hu
          · simp [commaSpace]
          · rcases List.mem_cons.mp hu with rfl | hu
            · exact fun h => ht0 (ht0eq ▸ List.infix_cons h)
            · exact hrest u hu
        · rw [← hjoin, ht0eq, joinWith_cons_head, hc]
          simp [joinWith, commaSpace]
      · refine ⟨(c :: t0) :: rest, List.cons_ne_nil _ _, ?_, ?_⟩
        · intro u hu
          rcases List.mem_cons.mp hu with rfl | hu
          · intro h
            rcases List.infix_cons_iff.mp h with h | h
            · exact hp h
            · exact ht0 h
          · exact hrest u hu
        · rw [joinWith_cons_head, hjoin]

/-- The model of `QString::split` computes the spec's exact split on
`", "`, and that split is unique. -/
theorem split_commaSpace_iff (r : QString) (parts : List QString) :
    SplitsInto commaSpace r parts ↔ split commaSpace r = parts := by
  constructor
  · rintro ⟨hne, hfree, rfl⟩
    exact split_joinWith parts hne hfree
  · intro h
    obtain ⟨parts', hne, hfree, hjoin⟩ := exists_splitsInto r
    have h' := split_joinWith parts' hne hfree
    rw [hjoin, h] at h'
    rw [h']
    exact ⟨hne, hfree, hjoin⟩

/-- The `foreach` loop appends the recognised modes in order. -/
theorem foldl_appendMode (w : WireStrings) (l : List QString) (acc : List Mode) :
    l.foldl (appendMode w) acc =
      acc ++ (l.map (stringToMode w)).filter (fun m => m ≠ Mode.Undefined) := by
  induction l generalizing acc with
  | nil => simp
  | cons t ts ih =>
    rw [List.foldl_cons, ih]
    by_cases h : stringToMode w t = Mode.Undefined
    · simp [appendMode, h]
    · simp [appendMode, h]

/-! ### The supported-modes list -/

/-- Claim C3: for a valid reply `r`, `getSupportedModes` returns the parts of
the split of `r` on `", "`, mapped by `stringToMode`, without those mapped to
`Undefined`, in order and with duplicates; the split is the exact one of the
spec (`r` is the parts joined by `", "`, no part contains `", "`), which
every `r` has; for an invalid reply the result is empty.  For the reply that
joins the mass-storage wire string, an unrecognised token and the pc-suite
wire string, none of them containing the delimiter and the wire strings
being pairwise distinct, the result is `[MassStorage, PCSuite]`. -/
theorem getSupportedModes_spec (w : WireStrings) :
    (∀ r : QString, getSupportedModes w (some r) =
        ((split commaSpace r).map (stringToMode w)).filter
          (fun m => m ≠ Mode.Undefined)) ∧
    (∀ (r : QString) (parts : List QString), SplitsInto commaSpace r parts →
        getSupportedModes w (some r) =
          (parts.map (stringToMode w)).filter (fun m => m ≠ Mode.Undefined)) ∧
    (∀ r : QString, ∃ parts, SplitsInto commaSpace r parts) ∧
    getSupportedModes w none = [] ∧
    (∀ token : QString, w.vocabulary.Nodup → token ∉ w.vocabulary →
        ¬ commaSpace <:+: w.MODE_MASS_STORAGE → ¬ commaSpace <:+: token →
        ¬ commaSpace <:+: w.MODE_PC_SUITE →
        getSupportedModes w
            (some (joinWith commaSpace [w.MODE_MASS_STORAGE, token, w.MODE_PC_SUITE])) =
          [Mode.MassStorage, Mode.PCSuite]) := by
  have hmain : ∀ r : QString, getSupportedModes w (some r) =
      ((split commaSpace r).map (stringToMode w)).filter
        (fun m => m ≠ Mode.Undefined) := by
    intro r
    simp only [getSupportedModes]
    rw [foldl_appendMode]
    simp
  refine ⟨hmain, ?_, exists_splitsInto, rfl, ?_⟩
  · intro r parts h
    rw [hmain, (split_commaSpace_iff r parts).mp h]
  · intro token hd htok hms hfree hpc
    have hsplit : SplitsInto commaSpace
        (joinWith commaSpace [w.MODE_MASS_STORAGE, token, w.MODE_PC_SUITE])
        [w.MODE_MASS_STORAGE, token, w.MODE_PC_SUITE] := by
      refine ⟨List.cons_ne_nil _ _, ?_, rfl⟩
      intro t ht
      simp only [List.mem_cons, List.mem_singleton, List.not_mem_nil, or_false] at ht
      rcases ht with rfl | rfl | rfl <;> assumption
    rw [hmain, (split_commaSpace_iff _ _).mp hsplit]
    have h1 := (stringToMode_of_modeToString w hd) Mode.MassStorage
    have h2 := (stringToMode_of_modeToString w hd) Mode.PCSuite
    have h3 := stringToMode_eq_Undefined w token htok
    simp only [modeToString] at h1 h2
    simp [h1, h2, h3]

theorem getSupportedModes_spec_witness :
    sampleWire.vocabulary.Nodup ∧ "undefined_token".toList ∉ sampleWire.vocabulary ∧
      getSupportedModes sampleWire
          (some "mass_storage, undefined_token, pc_suite".toList) =
        [Mode.MassStorage, Mode.PCSuite] :=
  ⟨by decide, by decide,
    (getSupportedModes_spec sampleWire).2.2.2.2 "undefined_token".toList
      (by decide) (by decide) (by decide) (by decide) (by decide)⟩

/-- Claim C10: for every string `s` the slot `supportedModesChanged` emits
exactly one `supportedModesChanged` signal, whose payload is what
`getSupportedModes` returns for the valid reply `s`, namely the split of `s`
on `", "` mapped by `stringToMode` without the `Undefined` results; for the
empty string the payload is the empty list, when no wire string is empty. -/
theorem supportedModesChanged_spec (w : WireStrings) :
    (∀ s : QString, supportedModesChanged w s =
        [Emitted.supportedModesChanged (getSupportedModes w (some s))]) ∧
    (∀ s : QString, supportedModesChanged w s =
        [Emitted.supportedModesChanged
          (((split commaSpace s).map (stringToMode w)).filter
            (fun m => m ≠ Mode.Undefined))]) ∧
    ([] ∉ w.vocabulary → supportedModesChanged w [] = [Emitted.supportedModesChanged []]) := by
  refine ⟨fun s => rfl, ?_, ?_⟩
  · intro s
    simp only [supportedModesChanged]
    rw [foldl_appendMode]
    simp
  · intro h
    have h0 := stringToMode_eq_Undefined w [] h
    simp [supportedModesChanged, split, commaSpace, splitAux, appendMode, h0]

theorem supportedModesChanged_spec_witness :
    [] ∉ sampleWire.vocabulary ∧
      supportedModesChanged sampleWire [] = [Emitted.supportedModesChanged []] :=
  ⟨by decide, (supportedModesChanged_spec sampleWire).2.2 (by decide)⟩

/-! ### The mode-changed slot and the default mode -/

/-- Claim C8: the slot `modeChanged` emits nothing for the pre-unmount
string, and for any other string `m` exactly one `modeChanged` signal with
payload `stringToMode m`, which is `Undefined` when `m` is no wire string. -/
theorem modeChanged_spec (w : WireStrings) (m : QString) :
    (m = w.USB_PRE_UNMOUNT → modeChanged w m = []) ∧
    (m ≠ w.USB_PRE_UNMOUNT →
        modeChanged w m = [Emitted.modeChanged (stringToMode w m)]) ∧
    (m ≠ w.USB_PRE_UNMOUNT → m ∉ w.vocabulary →
        modeChanged w m = [Emitted.modeChanged Mode.Undefined]) := by
  refine ⟨fun h => by simp [modeChanged, h], fun h => by simp [modeChanged, h], ?_⟩
  intro h hv
  simp [modeChanged, h, stringToMode_eq_Undefined w m hv]

theorem modeChanged_spec_witness :
    modeChanged sampleWire "pre-unmount".toList = [] ∧
      modeChanged sampleWire "mtp_mode".toList = [Emitted.modeChanged Mode.MTP] ∧
      modeChanged sampleWire "bogus".toList = [Emitted.modeChanged Mode.Undefined] :=
  ⟨(modeChanged_spec sampleWire "pre-unmount".toList).1 (by decide),
   (modeChanged_spec sampleWire "mtp_mode".toList).2.1 (by decide),
   (modeChanged_spec sampleWire "bogus".toList).2.2 (by decide) (by decide)⟩

/-- Claim C9: `getDefaultMode` returns `Undefined` when the reply is not a
method reply or does not have exactly one argument; otherwise it returns
`stringToMode` of the string value of the single argument. -/
theorem getDefaultMode_spec (w : WireStrings) (result : QDBusMessage) :
    ((result.type ≠ MessageType.ReplyMessage ∨ result.arguments.length ≠ 1) →
        getDefaultMode w result = Mode.Undefined) ∧
    (result.type = MessageType.ReplyMessage → result.arguments.length = 1 →
        ∃ arg, result.arguments = [arg] ∧
          getDefaultMode w result = stringToMode w arg.toString) := by
  constructor
  · intro h
    simp [getDefaultMode, h]
  · intro ht hl
    obtain ⟨ty, args⟩ := result
    simp only at ht hl
    match args, hl with
    | [arg], _ =>
      refine ⟨arg, rfl, ?_⟩
      simp [getDefaultMode, ht]

theorem getDefaultMode_spec_witness :
    getDefaultMode sampleWire ⟨MessageType.ErrorMessage, []⟩ = Mode.Undefined ∧
      getDefaultMode sampleWire ⟨MessageType.ReplyMessage, []⟩ = Mode.Undefined ∧
      getDefaultMode sampleWire
        ⟨MessageType.ReplyMessage, [QVariant.string "ask".toList, QVariant.invalid]⟩ =
          Mode.Undefined ∧
      ∃ arg, [QVariant.string "ask".toList] = [arg] ∧
        getDefaultMode sampleWire ⟨MessageType.ReplyMessage, [QVariant.string "ask".toList]⟩ =
          stringToMode sampleWire arg.toString :=
  ⟨(getDefaultMode_spec sampleWire ⟨MessageType.ErrorMessage, []⟩).1 (by decide),
   (getDefaultMode_spec sampleWire ⟨MessageType.ReplyMessage, []⟩).1 (by decide),
   (getDefaultMode_spec sampleWire
      ⟨MessageType.ReplyMessage, [QVariant.string "ask".toList, QVariant.invalid]⟩).1
      (by decide),
   (getDefaultMode_spec sampleWire
      ⟨MessageType.ReplyMessage, [QVariant.string "ask".toList]⟩).2 rfl rfl⟩

/-! ### Requests -/

theorem allowed_iff_mem_setModeAllowList (mode : Mode) :
    (Mode.PCSuite = mode ∨ Mode.MassStorage = mode ∨ Mode.ChargingOnly = mode ∨
      Mode.Developer = mode ∨ Mode.MTP = mode ∨ Mode.Adb = mode ∨ Mode.Diag = mode ∨
      Mode.Host = mode ∨ Mode.ConnectionSharing = mode ∨ Mode.Charger = mode) ↔
    mode ∈ setModeAllowList := by
  cases mode <;> simp [setModeAllowList]

theorem allowed_iff_mem_setDefaultModeAllowList (mode : Mode) :
    (Mode.PCSuite = mode ∨ Mode.MassStorage = mode ∨ Mode.ChargingOnly = mode ∨
      Mode.Developer = mode ∨ Mode.MTP = mode ∨ Mode.Adb = mode ∨ Mode.Diag = mode ∨
      Mode.Host = mode ∨ Mode.Ask = mode ∨ Mode.ConnectionSharing = mode ∨
      Mode.Charger = mode) ↔
    mode ∈ setDefaultModeAllowList := by
  cases mode <;> simp [setDefaultModeAllowList, setModeAllowList]

/-- Claim C4: when the wire strings of the allow-list are non-empty,
`setMode m` returns true exactly for the modes `m` of the allow-list, so
`setMode Ask` returns false; when it returns false no request is sent; when
it returns true exactly one non-blocking `USB_MODE_STATE_SET` request with
`modeToString m` is sent; and neither the flag nor the requests depend on
what the bus call hands back. -/
theorem setMode_spec (w : WireStrings)
    (hne : ∀ m ∈ setModeAllowList, modeToString w m ≠ [])
    (m : Mode) (reply : QDBusMessage) :
    ((setMode w m reply).1 = true ↔ m ∈ setModeAllowList) ∧
    (setMode w Mode.Ask reply).1 = false ∧
    ((setMode w m reply).1 = false → (setMode w m reply).2 = []) ∧
    ((setMode w m reply).1 = true → (setMode w m reply).2 =
        [⟨Method.USB_MODE_STATE_SET, [modeToString w m], CallMode.NoBlock⟩]) ∧
    (∀ reply' : QDBusMessage, setMode w m reply' = setMode w m reply) := by
  have hAsk : (setMode w Mode.Ask reply).1 = false := by simp [setMode]
  by_cases hm : m ∈ setModeAllowList
  · have hcond := (allowed_iff_mem_setModeAllowList m).mpr hm
    have hstr : (modeToString w m).isEmpty = false := by
      rw [Bool.eq_false_iff, Ne, List.isEmpty_iff]
      exact hne m hm
    have hval : ∀ r : QDBusMessage, setMode w m r =
        (true, [⟨Method.USB_MODE_STATE_SET, [modeToString w m], CallMode.NoBlock⟩]) := by
      intro r
      unfold setMode
      rw [if_neg (not_not.mpr hcond)]
      simp [hstr]
    refine ⟨?_, hAsk, ?_, ?_, ?_⟩
    · rw [hval]; simp [hm]
    · rw [hval]; simp
    · rw [hval]; simp
    · intro r; rw [hval, hval]
  · have hcond := (not_congr (allowed_iff_mem_setModeAllowList m)).mpr hm
    have hval : ∀ r : QDBusMessage, setMode w m r = (false, []) := by
      intro r
      unfold setMode
      rw [if_pos hcond]
    refine ⟨?_, hAsk, ?_, ?_, ?_⟩
    · rw [hval]; simp [hm]
    · rw [hval]; simp
    · rw [hval]; simp
    · intro r; rw [hval, hval]

theorem setMode_spec_witness :
    (∀ m ∈ setModeAllowList, modeToString sampleWire m ≠ []) ∧
      ((setMode sampleWire Mode.MTP ⟨MessageType.ErrorMessage, []⟩).1 = true ↔
        Mode.MTP ∈ setModeAllowList) ∧
      (setMode sampleWire Mode.Ask ⟨MessageType.ErrorMessage, []⟩).1 = false :=
  ⟨by decide,
   (setMode_spec sampleWire (by decide) Mode.MTP ⟨MessageType.ErrorMessage, []⟩).1,
   (setMode_spec sampleWire (by decide) Mode.MTP ⟨MessageType.ErrorMessage, []⟩).2.1⟩

/-- Claim C5: when the wire strings of the accepted modes are non-empty,
`setDefaultMode m` returns true exactly when `m` is in the allow-list of
`setMode` or is `Ask`, and the reply to the configuration-set call is not an
error reply; for an accepted mode exactly one blocking `USB_MODE_CONFIG_SET`
call with `modeToString m` is made; for any other mode the result is false
and no call is made. -/
theorem setDefaultMode_spec (w : WireStrings)
    (hne : ∀ m ∈ setDefaultModeAllowList, modeToString w m ≠ [])
    (m : Mode) (result : QDBusMessage) :
    ((setDefaultMode w m result).1 = true ↔
        (m ∈ setModeAllowList ∨ m = Mode.Ask) ∧
          result.type ≠ MessageType.ErrorMessage) ∧
    ((m ∈ setModeAllowList ∨ m = Mode.Ask) → (setDefaultMode w m result).2 =
        [⟨Method.USB_MODE_CONFIG_SET, [modeToString w m], CallMode.Block⟩]) ∧
    (¬ (m ∈ setModeAllowList ∨ m = Mode.Ask) →
        setDefaultMode w m result = (false, [])) := by
  have hmem : m ∈ setDefaultModeAllowList ↔ (m ∈ setModeAllowList ∨ m = Mode.Ask) := by
    simp [setDefaultModeAllowList]
  by_cases hm : m ∈ setDefaultModeAllowList
  · have hcond := (allowed_iff_mem_setDefaultModeAllowList m).mpr hm
    have hstr : (modeToString w m).isEmpty = false := by
      rw [Bool.eq_false_iff, Ne, List.isEmpty_iff]
      exact hne m hm
    have hval : setDefaultMode w m result =
        (decide (result.type ≠ MessageType.ErrorMessage),
         [⟨Method.USB_MODE_CONFIG_SET, [modeToString w m], CallMode.Block⟩]) := by
      unfold setDefaultMode
      rw [if_neg (not_not.mpr hcond)]
      simp [hstr]
    refine ⟨?_, ?_, ?_⟩
    · rw [hval]; simp [hmem.mp hm]
    · intro _; rw [hval]
    · intro h; exact absurd (hmem.mp hm) h
  · have hcond := (not_congr (allowed_iff_mem_setDefaultModeAllowList m)).mpr hm
    have hval : setDefaultMode w m result = (false, []) := by
      unfold setDefaultMode
      rw [if_pos hcond]
    have hm' : ¬ (m ∈ setModeAllowList ∨ m = Mode.Ask) := fun h => hm (hmem.mpr h)
    refine ⟨?_, ?_, ?_⟩
    · rw [hval]; simp only [Bool.false_eq_true, false_iff]; exact fun h => hm' h.1
    · intro h; exact absurd h hm'
    · intro _; exact hval

theorem setDefaultMode_spec_witness :
    (∀ m ∈ setDefaultModeAllowList, modeToString sampleWire m ≠ []) ∧
      ((setDefaultMode sampleWire Mode.Ask ⟨MessageType.ReplyMessage, []⟩).1 = true ↔
        (Mode.Ask ∈ setModeAllowList ∨ Mode.Ask = Mode.Ask) ∧
          MessageType.ReplyMessage ≠ MessageType.ErrorMessage) ∧
      setDefaultMode sampleWire Mode.Connected ⟨MessageType.ReplyMessage, []⟩ = (false, []) :=
  ⟨by decide,
   (setDefaultMode_spec sampleWire (by decide) Mode.Ask ⟨MessageType.ReplyMessage, []⟩).1,
   (setDefaultMode_spec sampleWire (by decide) Mode.Connected
      ⟨MessageType.ReplyMessage, []⟩).2.2 (by decide)⟩

/-! ### Lazy subscription -/

theorem increment_of_lt (bits count : Nat) (h : count + 1 < 2 ^ bits) :
    increment bits count = count + 1 :=
  Nat.mod_eq_of_lt h

theorem increment_wrap (bits count : Nat) (h : count + 1 = 2 ^ bits) :
    increment bits count = 0 := by
  rw [increment, h, Nat.mod_self]

theorem decrement_of_pos (bits count : Nat) (hpos : 0 < count) (h : count < 2 ^ bits) :
    decrement bits count = count - 1 := by
  have heq : count + (2 ^ bits - 1) = (count - 1) + 2 ^ bits := by omega
  rw [decrement, heq, Nat.add_mod_right]
  exact Nat.mod_eq_of_lt (by omega)

theorem connectChannel_eq (bits : Nat) (st : State) (i : Fin 3) (name : BusSignal) :
    connectChannel bits st i name =
      (⟨Function.update st.connectCount i (increment bits (st.connectCount i)),
        if 0 = st.connectCount i then Function.update st.subscribed name true
        else st.subscribed⟩,
       if 0 = st.connectCount i then [BusAction.connect name] else []) := by
  unfold connectChannel
  split <;> rfl

theorem disconnectIfZero_eq (st : State) (i : Fin 3) (name : BusSignal) :
    disconnectIfZero st i name =
      (⟨st.connectCount,
        if 0 = st.connectCount i then Function.update st.subscribed name false
        else st.subscribed⟩,
       if 0 = st.connectCount i then [BusAction.disconnect name] else []) := by
  unfold disconnectIfZero
  split <;> rfl

theorem Inv_init : Inv 0 noObservers State.init := by
  simp [Inv, noObservers, State.init]

theorem Inv_step (bits n : Nat) (obs : Signal → Nat) (st : State) (e : Event)
    (h : Inv n obs st) (hn : n + 1 < 2 ^ bits) (hadm : Admissible obs [e] = true) :
    Inv (n + 1) (observersAfter obs e) (step bits st e).1 := by
  obtain ⟨⟨h0, h1, h2⟩, ⟨b0, b1, b2⟩, s0, s1, s2⟩ := h
  simp only [SIGNAL_USB_MODE, SIGNAL_USB_ERROR, SIGNAL_USB_SUPPORTED_MODES] at *
  have i0 := increment_of_lt bits (st.connectCount 0) (by omega)
  have i1 := increment_of_lt bits (st.connectCount 1) (by omega)
  have i2 := increment_of_lt bits (st.connectCount 2) (by omega)
  cases e with
  | connect signal =>
    cases signal
    all_goals
      simp only [Inv, step, connectNotify, connectChannel_eq, observersAfter,
        SIGNAL_USB_MODE, SIGNAL_USB_ERROR, SIGNAL_USB_SUPPORTED_MODES]
      simp [Function.update_apply, i0, i1, i2]
      refine ⟨by omega, by omega, ?_⟩
      first
        | exact ⟨s0, s1, s2⟩
        | (split_ifs with hz <;>
           (simp [Function.update_apply, ← s0, ← s1, ← s2]; try omega))
  | disconnect signal =>
    simp [Admissible] at hadm
    cases signal
    · have d0 := decrement_of_pos bits (st.connectCount 0) (by omega) (by omega)
      simp only [Inv, step, disconnectNotify, disconnectIfZero_eq, observersAfter,
        SIGNAL_USB_MODE, SIGNAL_USB_ERROR, SIGNAL_USB_SUPPORTED_MODES]
      simp [Function.update_apply, d0]
      refine ⟨by omega, by omega, ?_⟩
      split_ifs with hz <;>
      simp [Function.update_apply, ← s0, ← s1, ← s2] <;>
      omega
    · have d1 := decrement_of_pos bits (st.connectCount 1) (by omega) (by omega)
      simp only [Inv, step, disconnectNotify, disconnectIfZero_eq, observersAfter,
        SIGNAL_USB_MODE, SIGNAL_USB_ERROR, SIGNAL_USB_SUPPORTED_MODES]
      simp [Function.update_apply, d1]
      refine ⟨by omega, by omega, ?_⟩
      split_ifs with hz <;>
      simp [Function.update_apply, ← s0, ← s1, ← s2] <;>
      omega
    · simp only [Inv, step, disconnectNotify, disconnectIfZero_eq, observersAfter,
        SIGNAL_USB_MODE, SIGNAL_USB_ERROR, SIGNAL_USB_SUPPORTED_MODES]
      simp [Function.update_apply, i2]
      exact ⟨by omega, by omega, s0, s1, s2.mp (by omega)⟩
    · simp only [Inv, step, disconnectNotify, observersAfter,
        SIGNAL_USB_MODE, SIGNAL_USB_ERROR, SIGNAL_USB_SUPPORTED_MODES]
      simp [Function.update_apply]
      exact ⟨⟨h0, h1, h2⟩, ⟨by omega, by omega, by omega⟩, s0, s1, s2⟩

theorem Admissible_cons (obs : Signal → Nat) (e : Event) (es : List Event) :
    Admissible obs (e :: es) =
      (Admissible obs [e] && Admissible (observersAfter obs e) es) := by
  cases e <;> simp [Admissible]

theorem Admissible_append (obs : Signal → Nat) (es es' : List Event) :
    Admissible obs (es ++ es') =
      (Admissible obs es && Admissible (observers obs es) es') := by
  induction es generalizing obs with
  | nil => simp [Admissible, observers]
  | cons e es ih =>
    rw [List.cons_append, Admissible_cons, ih, Admissible_cons obs e es, observers,
      Bool.and_assoc]

theorem observers_append (obs : Signal → Nat) (es es' : List Event) :
    observers obs (es ++ es') = observers (observers obs es) es' := by
  induction es generalizing obs with
  | nil => rfl
  | cons e es ih => exact ih (observersAfter obs e)

theorem run_append (bits : Nat) (st : State) (es es' : List Event) :
    (run bits st (es ++ es')).1 = (run bits (run bits st es).1 es').1 := by
  induction es generalizing st with
  | nil => rfl
  | cons e es ih => exact ih (step bits st e).1

theorem Inv_run (bits n : Nat) (obs : Signal → Nat) (st : State) (es : List Event)
    (h : Inv n obs st) (hn : n + es.length < 2 ^ bits)
    (hadm : Admissible obs es = true) :
    Inv (n + es.length) (observers obs es) (run bits st es).1 := by
  induction es generalizing n obs st with
  | nil => exact h
  | cons e es ih =>
    rw [Admissible_cons, Bool.and_eq_true] at hadm
    rw [List.length_cons] at hn
    have hstep := Inv_step bits n obs st e h (by omega) hadm.1
    have := ih (n + 1) _ _ hstep (by omega) hadm.2
    rw [List.length_cons, show n + (es.length + 1) = n + 1 + es.length by omega]
    exact this

/-- While fewer than `2 ^ bits` notifications have happened no counter wraps,
and the counter of each channel is positive exactly when the channel's
signal is connected on the bus. -/
theorem connectCount_pos_iff_subscribed_of_short (bits : Nat) (events : List Event)
    (hlen : events.length < 2 ^ bits)
    (hadm : Admissible noObservers events = true) (ch : Fin 3) :
    0 < (run bits State.init events).1.connectCount ch ↔
      (run bits State.init events).1.subscribed (busSignal ch) = true := by
  obtain ⟨_, _, s0, s1, s2⟩ :=
    Inv_run bits 0 noObservers State.init events Inv_init (by omega) hadm
  match ch with
  | 0 => exact s0
  | 1 => exact s1
  | 2 => exact s2

theorem connectCount_pos_iff_subscribed_of_short_witness :
    [Event.connect Signal.error, Event.connect Signal.supportedModesChanged,
       Event.disconnect Signal.error].length < 2 ^ 32 ∧
      (0 < (run 32 State.init
            [Event.connect Signal.error, Event.connect Signal.supportedModesChanged,
             Event.disconnect Signal.error]).1.connectCount SIGNAL_USB_ERROR ↔
        (run 32 State.init
            [Event.connect Signal.error, Event.connect Signal.supportedModesChanged,
             Event.disconnect Signal.error]).1.subscribed
          (busSignal SIGNAL_USB_ERROR) = true) :=
  ⟨by decide,
   connectCount_pos_iff_subscribed_of_short 32 _ (by decide) (by decide) SIGNAL_USB_ERROR⟩

theorem step_actions_mode (bits n : Nat) (obs : Signal → Nat) (st : State) (e : Event)
    (h : Inv n obs st) (hn : n < 2 ^ bits) (hadm : Admissible obs [e] = true) :
    ((step bits st e).2.count (BusAction.connect BusSignal.USB_MODE_SIGNAL_NAME) =
        if e = Event.connect Signal.modeChanged ∧ obs Signal.modeChanged = 0
        then 1 else 0) ∧
    ((step bits st e).2.count (BusAction.disconnect BusSignal.USB_MODE_SIGNAL_NAME) =
        if e = Event.disconnect Signal.modeChanged ∧ obs Signal.modeChanged = 1
        then 1 else 0) := by
  obtain ⟨⟨h0, -, -⟩, ⟨b0, -, -⟩, -⟩ := h
  simp only [SIGNAL_USB_MODE] at h0 b0
  have k0 : (0 = obs Signal.modeChanged) ↔ obs Signal.modeChanged = 0 := by omega
  cases e with
  | connect signal =>
    cases signal <;>
    simp only [step, connectNotify, connectChannel_eq,
      SIGNAL_USB_MODE, SIGNAL_USB_ERROR, SIGNAL_USB_SUPPORTED_MODES, h0, k0] <;>
    simp <;>
    split_ifs <;> simp
  | disconnect signal =>
    simp [Admissible] at hadm
    cases signal
    · have d0 := decrement_of_pos bits (st.connectCount 0) (by omega) (by omega)
      have k1 : (0 = obs Signal.modeChanged - 1) ↔ obs Signal.modeChanged = 1 := by omega
      rw [h0] at d0
      simp only [step, disconnectNotify, disconnectIfZero_eq, SIGNAL_USB_MODE]
      simp [Function.update_apply, d0, h0, k1]
      split_ifs <;> simp
    all_goals
      simp only [step, disconnectNotify, disconnectIfZero_eq,
        SIGNAL_USB_MODE, SIGNAL_USB_ERROR, SIGNAL_USB_SUPPORTED_MODES]
      simp
      try (split_ifs <;> simp)

theorem step_actions_error (bits n : Nat) (obs : Signal → Nat) (st : State) (e : Event)
    (h : Inv n obs st) (hn : n < 2 ^ bits) (hadm : Admissible obs [e] = true) :
    ((step bits st e).2.count (BusAction.connect BusSignal.USB_MODE_ERROR_SIGNAL_NAME) =
        if e = Event.connect Signal.error ∧ obs Signal.error = 0 then 1 else 0) ∧
    ((step bits st e).2.count (BusAction.disconnect BusSignal.USB_MODE_ERROR_SIGNAL_NAME) =
        if e = Event.disconnect Signal.error ∧ obs Signal.error = 1 then 1 else 0) := by
  obtain ⟨⟨-, h1, -⟩, ⟨-, b1, -⟩, -⟩ := h
  simp only [SIGNAL_USB_ERROR] at h1 b1
  have k0 : (0 = obs Signal.error) ↔ obs Signal.error = 0 := by omega
  cases e with
  | connect signal =>
    cases signal <;>
    simp only [step, connectNotify, connectChannel_eq,
      SIGNAL_USB_MODE, SIGNAL_USB_ERROR, SIGNAL_USB_SUPPORTED_MODES, h1, k0] <;>
    simp <;>
    split_ifs <;> simp
  | disconnect signal =>
    simp [Admissible] at hadm
    cases signal
    case error =>
      have d1 := decrement_of_pos bits (st.connectCount 1) (by omega) (by omega)
      have k1 : (0 = obs Signal.error - 1) ↔ obs Signal.error = 1 := by omega
      rw [h1] at d1
      simp only [step, disconnectNotify, disconnectIfZero_eq, SIGNAL_USB_ERROR]
      simp [Function.update_apply, d1, h1, k1]
      split_ifs <;> simp
    all_goals
      simp only [step, disconnectNotify, disconnectIfZero_eq,
        SIGNAL_USB_MODE, SIGNAL_USB_ERROR, SIGNAL_USB_SUPPORTED_MODES]
      simp
      try (split_ifs <;> simp)

/-- On the mode-changed and the error channel, while fewer than `2 ^ bits`
notifications have happened, the hooks connect on the bus exactly when the
number of observers goes from 0 to 1 and disconnect exactly when it goes from
1 to 0: the event `e` that follows the events `pre` makes one bus connection
when it registers the first observer and none otherwise, and one bus
disconnection when it removes the last observer and none otherwise. -/
theorem lazy_subscription_mode_error (bits : Nat) (pre : List Event) (e : Event)
    (ch : Fin 3) (hch : ch ≠ SIGNAL_USB_SUPPORTED_MODES)
    (hlen : (pre ++ [e]).length < 2 ^ bits)
    (hadm : Admissible noObservers (pre ++ [e]) = true) :
    ((step bits (run bits State.init pre).1 e).2.count (BusAction.connect (busSignal ch)) =
        if e = Event.connect (clientSignal ch) ∧
            observers noObservers pre (clientSignal ch) = 0 then 1 else 0) ∧
    ((step bits (run bits State.init pre).1 e).2.count
          (BusAction.disconnect (busSignal ch)) =
        if e = Event.disconnect (clientSignal ch) ∧
            observers noObservers pre (clientSignal ch) = 1 then 1 else 0) := by
  rw [Admissible_append, Bool.and_eq_true] at hadm
  rw [List.length_append, List.length_singleton] at hlen
  have hinv := Inv_run bits 0 noObservers State.init pre Inv_init (by omega) hadm.1
  rw [Nat.zero_add] at hinv
  match ch, hch with
  | 0, _ => exact step_actions_mode bits _ _ _ e hinv (by omega) hadm.2
  | 1, _ => exact step_actions_error bits _ _ _ e hinv (by omega) hadm.2
  | 2, h => exact absurd rfl h

theorem lazy_subscription_mode_error_witness :
    ([Event.connect Signal.modeChanged] ++ [Event.disconnect Signal.modeChanged]).length
        < 2 ^ 32 ∧
      (step 32 (run 32 State.init [Event.connect Signal.modeChanged]).1
          (Event.disconnect Signal.modeChanged)).2.count
        (BusAction.disconnect (busSignal SIGNAL_USB_MODE)) = 1 :=
  ⟨by decide,
   (lazy_subscription_mode_error 32 [Event.connect Signal.modeChanged]
      (Event.disconnect Signal.modeChanged) SIGNAL_USB_MODE (by decide) (by decide)
      (by decide)).2⟩

/-! ### The supported-modes channel -/

theorem step_connect_supportedModes (bits : Nat) (st : State) :
    (step bits st (Event.connect Signal.supportedModesChanged)).1.connectCount
        SIGNAL_USB_SUPPORTED_MODES =
      increment bits (st.connectCount SIGNAL_USB_SUPPORTED_MODES) ∧
    (step bits st (Event.connect Signal.supportedModesChanged)).1.subscribed
        BusSignal.USB_MODE_SUPPORTED_MODES_SIGNAL_NAME =
      (if 0 = st.connectCount SIGNAL_USB_SUPPORTED_MODES then true
       else st.subscribed BusSignal.USB_MODE_SUPPORTED_MODES_SIGNAL_NAME) ∧
    (step bits st (Event.connect Signal.supportedModesChanged)).2 =
      (if 0 = st.connectCount SIGNAL_USB_SUPPORTED_MODES then
        [BusAction.connect BusSignal.USB_MODE_SUPPORTED_MODES_SIGNAL_NAME]
       else []) := by
  have hstep : step bits st (Event.connect Signal.supportedModesChanged) =
      connectChannel bits st SIGNAL_USB_SUPPORTED_MODES
        BusSignal.USB_MODE_SUPPORTED_MODES_SIGNAL_NAME := by
    simp [step, connectNotify]
  rw [hstep, connectChannel_eq]
  refine ⟨by simp, ?_, rfl⟩
  dsimp only
  split_ifs <;> simp

theorem step_disconnect_supportedModes (bits : Nat) (st : State) :
    (step bits st (Event.disconnect Signal.supportedModesChanged)).1.connectCount
        SIGNAL_USB_SUPPORTED_MODES =
      increment bits (st.connectCount SIGNAL_USB_SUPPORTED_MODES) ∧
    (step bits st (Event.disconnect Signal.supportedModesChanged)).1.subscribed
        BusSignal.USB_MODE_SUPPORTED_MODES_SIGNAL_NAME =
      (if 0 = increment bits (st.connectCount SIGNAL_USB_SUPPORTED_MODES) then false
       else st.subscribed BusSignal.USB_MODE_SUPPORTED_MODES_SIGNAL_NAME) ∧
    (step bits st (Event.disconnect Signal.supportedModesChanged)).2 =
      (if 0 = increment bits (st.connectCount SIGNAL_USB_SUPPORTED_MODES) then
        [BusAction.disconnect BusSignal.USB_MODE_SUPPORTED_MODES_SIGNAL_NAME]
       else []) := by
  have hstep : step bits st (Event.disconnect Signal.supportedModesChanged) =
      disconnectIfZero
        ⟨Function.update st.connectCount SIGNAL_USB_SUPPORTED_MODES
          (increment bits (st.connectCount SIGNAL_USB_SUPPORTED_MODES)), st.subscribed⟩
        SIGNAL_USB_SUPPORTED_MODES BusSignal.USB_MODE_SUPPORTED_MODES_SIGNAL_NAME := by
    simp [step, disconnectNotify]
  rw [hstep, disconnectIfZero_eq]
  refine ⟨by simp, ?_, by simp⟩
  simp only [Function.update_same]
  split_ifs <;> simp

/-- Claim C6, at the failing input: two observers are registered for
`supportedModesChanged` and both are removed again, the counters having at
least 3 bits.  The first registration connects on the bus; neither removal
disconnects, the counter ends at 4 with no observer left, and the bus
connection stays. -/
theorem supportedModes_never_disconnected (bits : Nat) (hbits : 3 ≤ bits) :
    Admissible noObservers
        [Event.connect Signal.supportedModesChanged,
         Event.connect Signal.supportedModesChanged,
         Event.disconnect Signal.supportedModesChanged,
         Event.disconnect Signal.supportedModesChanged] = true ∧
    (run bits State.init
        [Event.connect Signal.supportedModesChanged,
         Event.connect Signal.supportedModesChanged,
         Event.disconnect Signal.supportedModesChanged,
         Event.disconnect Signal.supportedModesChanged]).2 =
      [[BusAction.connect BusSignal.USB_MODE_SUPPORTED_MODES_SIGNAL_NAME], [], [], []] ∧
    observers noObservers
        [Event.connect Signal.supportedModesChanged,
         Event.connect Signal.supportedModesChanged,
         Event.disconnect Signal.supportedModesChanged,
         Event.disconnect Signal.supportedModesChanged]
        Signal.supportedModesChanged = 0 ∧
    (run bits State.init
        [Event.connect Signal.supportedModesChanged,
         Event.connect Signal.supportedModesChanged,
         Event.disconnect Signal.supportedModesChanged,
         Event.disconnect Signal.supportedModesChanged]).1.connectCount
        SIGNAL_USB_SUPPORTED_MODES = 4 ∧
    (run bits State.init
        [Event.connect Signal.supportedModesChanged,
         Event.connect Signal.supportedModesChanged,
         Event.disconnect Signal.supportedModesChanged,
         Event.disconnect Signal.supportedModesChanged]).1.subscribed
        BusSignal.USB_MODE_SUPPORTED_MODES_SIGNAL_NAME = true := by
  have hM : 8 ≤ 2 ^ bits :=
    le_trans (by norm_num) (Nat.pow_le_pow_right (by norm_num : 0 < 2) hbits)
  have e1 : increment bits 0 = 1 := increment_of_lt bits 0 (by omega)
  have e2 : increment bits 1 = 2 := increment_of_lt bits 1 (by omega)
  have e3 : increment bits 2 = 3 := increment_of_lt bits 2 (by omega)
  have e4 : increment bits 3 = 4 := increment_of_lt bits 3 (by omega)
  have z : State.init.connectCount SIGNAL_USB_SUPPORTED_MODES = 0 := rfl
  obtain ⟨c1, b1, a1⟩ := step_connect_supportedModes bits State.init
  rw [z] at c1 b1 a1
  rw [e1] at c1
  simp only [if_true] at b1 a1
  obtain ⟨c2, b2, a2⟩ := step_connect_supportedModes bits
    (step bits State.init (Event.connect Signal.supportedModesChanged)).1
  rw [c1] at c2 b2 a2
  rw [e2] at c2
  simp only [b1, show ¬ (0 = 1) by decide, if_false] at b2 a2
  obtain ⟨c3, b3, a3⟩ := step_disconnect_supportedModes bits
    (step bits (step bits State.init (Event.connect Signal.supportedModesChanged)).1
      (Event.connect Signal.supportedModesChanged)).1
  rw [c2, e3] at c3 b3 a3
  simp only [b2, show ¬ (0 = 3) by decide, if_false] at b3 a3
  obtain ⟨c4, b4, a4⟩ := step_disconnect_supportedModes bits
    (step bits (step bits (step bits State.init
        (Event.connect Signal.supportedModesChanged)).1
      (Event.connect Signal.supportedModesChanged)).1
      (Event.disconnect Signal.supportedModesChanged)).1
  rw [c3, e4] at c4 b4 a4
  simp only [b3, show ¬ (0 = 4) by decide, if_false] at b4 a4
  refine ⟨by decide, ?_, by decide, ?_, ?_⟩
  · simp only [run]
    rw [a1, a2, a3, a4]
  · simp only [run]
    exact c4
  · simp only [run]
    exact b4

theorem supportedModes_never_disconnected_witness :
    3 ≤ 32 ∧
    (run 32 State.init
        [Event.connect Signal.supportedModesChanged,
         Event.connect Signal.supportedModesChanged,
         Event.disconnect Signal.supportedModesChanged,
         Event.disconnect Signal.supportedModesChanged]).2 =
      [[BusAction.connect BusSignal.USB_MODE_SUPPORTED_MODES_SIGNAL_NAME], [], [], []] ∧
    (run 32 State.init
        [Event.connect Signal.supportedModesChanged,
         Event.connect Signal.supportedModesChanged,
         Event.disconnect Signal.supportedModesChanged,
         Event.disconnect Signal.supportedModesChanged]).1.connectCount
        SIGNAL_USB_SUPPORTED_MODES = 4 :=
  ⟨by decide, (supportedModes_never_disconnected 32 (by decide)).2.1,
   (supportedModes_never_disconnected 32 (by decide)).2.2.2.1⟩

theorem length_comeAndGo (k : Nat) : (comeAndGo k).length = 2 * k := by
  induction k with
  | zero => rfl
  | succ k ih => simp only [comeAndGo, List.length_cons, ih]; omega

theorem Admissible_comeAndGo (obs : Signal → Nat) (k : Nat) :
    Admissible obs (comeAndGo k) = true := by
  induction k generalizing obs with
  | zero => rfl
  | succ k ih => simp [comeAndGo, Admissible, observersAfter, ih]

theorem observers_comeAndGo (obs : Signal → Nat) (k : Nat) :
    observers obs (comeAndGo k) Signal.supportedModesChanged =
      obs Signal.supportedModesChanged := by
  induction k generalizing obs with
  | zero => rfl
  | succ k ih => simp [comeAndGo, observers, observersAfter, ih]

/-- While the second observer comes and goes the counter grows by two each
time and the bus connection stays. -/
theorem run_comeAndGo (bits k : Nat) (st : State)
    (hpos : 0 < st.connectCount SIGNAL_USB_SUPPORTED_MODES)
    (hsub : st.subscribed BusSignal.USB_MODE_SUPPORTED_MODES_SIGNAL_NAME = true)
    (hlt : st.connectCount SIGNAL_USB_SUPPORTED_MODES + 2 * k < 2 ^ bits) :
    (run bits st (comeAndGo k)).1.connectCount SIGNAL_USB_SUPPORTED_MODES =
        st.connectCount SIGNAL_USB_SUPPORTED_MODES + 2 * k ∧
      (run bits st (comeAndGo k)).1.subscribed
        BusSignal.USB_MODE_SUPPORTED_MODES_SIGNAL_NAME = true := by
  induction k generalizing st with
  | zero => exact ⟨rfl, hsub⟩
  | succ k ih =>
    obtain ⟨c1, b1, -⟩ := step_connect_supportedModes bits st
    rw [increment_of_lt bits _ (by omega)] at c1
    rw [if_neg (by omega), hsub] at b1
    obtain ⟨c2, b2, -⟩ := step_disconnect_supportedModes bits
      (step bits st (Event.connect Signal.supportedModesChanged)).1
    rw [c1, increment_of_lt bits _ (by omega)] at c2 b2
    rw [if_neg (by omega), b1] at b2
    have hrec := ih
      (step bits (step bits st (Event.connect Signal.supportedModesChanged)).1
        (Event.disconnect Signal.supportedModesChanged)).1
      (by omega) b2 (by omega)
    simp only [comeAndGo, run]
    refine ⟨?_, hrec.2⟩
    rw [hrec.1, c2]
    omega

/-- Claim C7, at the failing input: with counters of `bits` bits, a first
observer of `supportedModesChanged` is registered, a second one comes and
goes `2 ^ (bits - 1) - 1` times and is registered once more.  These are
`2 ^ bits` admissible notifications with two observers at the end; every one
of them increments the counter, which wraps to 0 while the bus connection
stays, so the counter is not positive although the channel is connected. -/
theorem supportedModes_counter_wraps (bits : Nat) (hbits : 0 < bits) :
    (wrapEvents bits).length = 2 ^ bits ∧
    Admissible noObservers (wrapEvents bits) = true ∧
    observers noObservers (wrapEvents bits) Signal.supportedModesChanged = 2 ∧
    (run bits State.init (wrapEvents bits)).1.connectCount
        SIGNAL_USB_SUPPORTED_MODES = 0 ∧
    (run bits State.init (wrapEvents bits)).1.subscribed
        (busSignal SIGNAL_USB_SUPPORTED_MODES) = true ∧
    ¬ (0 < (run bits State.init (wrapEvents bits)).1.connectCount
          SIGNAL_USB_SUPPORTED_MODES ↔
        (run bits State.init (wrapEvents bits)).1.subscribed
          (busSignal SIGNAL_USB_SUPPORTED_MODES) = true) := by
  obtain ⟨b, rfl⟩ : ∃ b, bits = b + 1 := ⟨bits - 1, by omega⟩
  have hpow : 2 ^ (b + 1) = 2 * 2 ^ b := by rw [pow_succ, Nat.mul_comm]
  have hb : 0 < 2 ^ b := Nat.pow_pos (by norm_num)
  have hlen : (wrapEvents (b + 1)).length = 2 ^ (b + 1) := by
    simp only [wrapEvents, List.length_cons, List.length_append, length_comeAndGo,
      List.length_nil, Nat.add_sub_cancel]
    omega
  have hadm : Admissible noObservers (wrapEvents (b + 1)) = true := by
    simp [wrapEvents, Admissible, Admissible_append, Admissible_comeAndGo]
  have hobs : observers noObservers (wrapEvents (b + 1)) Signal.supportedModesChanged = 2 := by
    simp [wrapEvents, observers, observers_append, observers_comeAndGo, observersAfter,
      noObservers]
  have z : State.init.connectCount SIGNAL_USB_SUPPORTED_MODES = 0 := rfl
  obtain ⟨c1, b1, -⟩ := step_connect_supportedModes (b + 1) State.init
  rw [z, increment_of_lt (b + 1) 0 (by omega)] at c1
  rw [z] at b1
  simp only [if_true] at b1
  obtain ⟨c2, b2⟩ := run_comeAndGo (b + 1) (2 ^ b - 1)
    (step (b + 1) State.init (Event.connect Signal.supportedModesChanged)).1
    (by omega) b1 (by omega)
  rw [c1] at c2
  obtain ⟨c3, b3, -⟩ := step_connect_supportedModes (b + 1)
    (run (b + 1) (step (b + 1) State.init (Event.connect Signal.supportedModesChanged)).1
      (comeAndGo (2 ^ b - 1))).1
  rw [c2, increment_wrap (b + 1) _ (by omega)] at c3
  rw [c2, if_neg (by omega), b2] at b3
  have hcount : (run (b + 1) State.init (wrapEvents (b + 1))).1.connectCount
      SIGNAL_USB_SUPPORTED_MODES = 0 := by
    simp only [wrapEvents, run, run_append, Nat.add_sub_cancel]
    exact c3
  have hsub : (run (b + 1) State.init (wrapEvents (b + 1))).1.subscribed
      (busSignal SIGNAL_USB_SUPPORTED_MODES) = true := by
    simp only [wrapEvents, run, run_append, Nat.add_sub_cancel]
    exact b3
  refine ⟨hlen, hadm, hobs, hcount, hsub, ?_⟩
  rw [hcount, hsub]
  simp

theorem supportedModes_counter_wraps_witness :
    0 < 8 ∧
    (wrapEvents 8).length = 2 ^ 8 ∧
    Admissible noObservers (wrapEvents 8) = true ∧
    (run 8 State.init (wrapEvents 8)).1.connectCount SIGNAL_USB_SUPPORTED_MODES = 0 ∧
    (run 8 State.init (wrapEvents 8)).1.subscribed
        (busSignal SIGNAL_USB_SUPPORTED_MODES) = true :=
  ⟨by decide, (supportedModes_counter_wraps 8 (by decide)).1,
   (supportedModes_counter_wraps 8 (by decide)).2.1,
   (supportedModes_counter_wraps 8 (by decide)).2.2.2.1,
   (supportedModes_counter_wraps 8 (by decide)).2.2.2.2.1⟩

end MeeGo
